import Mathlib

/-!
# Octopus-Dashboard: verification of the aggregation / pricing / caching core

Shallow embedding of the data-reconciliation core of the Octopus-Dashboard
repository, translated from the TypeScript source:

* `src/components/dashboard/ConsumptionChart.tsx` — rate lookup (`rateMap`),
  daily aggregation (`chartData`), zero-filled chart series, cost computation
  (`calculateTotalCost`) and missing-zone detection (`missingZones`);
* `src/lib/context/OctopusContext.tsx` — standing-charge selection;
* the client cache module (`ClientCache`);
* the dashboard page's `calculateChange` helper.

Modelling conventions:

* Instants are `Nat` — minutes since an arbitrary UTC epoch.  The runtime
  timezone is taken to be UTC, so date-fns `format(t, 'yyyy-MM-dd')` becomes
  the day index `t / 1440` and `format(t, "yyyy-MM-dd'T'HH:mm:ss'Z'")` becomes
  `t` itself (both formats are injective renderings of the instant).
* Monetary amounts and kWh quantities are `Rat` (the code's f64 arithmetic on
  small decimal inputs, modelled exactly).
* A JavaScript `Map` is an association list in which `set` replaces any
  earlier binding of the key (later `set` wins) and `get` takes the binding
  found first.
* JS truthiness on numbers (`if (price)`, `filter(item => item.price)`,
  `x || 0`) is the test `≠ 0`; on optionals it is `Option.isSome` combined
  with `≠ 0` where the value is numeric.
-/

/-- Number of minutes in a calendar day; instants are minutes since epoch. -/
def minutesPerDay : Nat := 1440

/-- `format(parseISO(t), 'yyyy-MM-dd')` under a UTC runtime: the UTC calendar
day an instant falls on. -/
def dayOf (t : Nat) : Nat := t / minutesPerDay

/-- One half-hourly consumption sample, from the upstream API
(`{ consumption, interval_start, interval_end }`). -/
structure Reading where
  interval_start : Nat
  interval_end : Nat
  consumption : Rat
  deriving Repr, DecidableEq

/-- One tariff rate entry (`{ value_inc_vat, valid_from, valid_to,
payment_method? }`). -/
structure Rate where
  valid_from : Nat
  valid_to : Option Nat
  value_inc_vat : Rat
  payment_method : Option String
  deriving Repr, DecidableEq

/-- One standing-charge entry (`{ value_inc_vat, valid_from, valid_to }`). -/
structure StandingCharge where
  valid_from : Nat
  valid_to : Option Nat
  value_inc_vat : Rat
  deriving Repr, DecidableEq

/-! ## JavaScript `Map` with numeric keys (rate lookup)

`ConsumptionChart.tsx` builds `rateMap = new Map<string, number>()` and fills
it with `rateMap.set(key, rate.value_inc_vat)`.  `Map.set` overwrites any
existing binding; we model the map as a list with the most recent binding in
front, and `get` as the first binding found. -/

/-- JS `Map.set k v`: the new binding shadows any earlier one. -/
def mapSet (m : List (Nat × Rat)) (k : Nat) (v : Rat) : List (Nat × Rat) :=
  (k, v) :: m

/-- JS `Map.get k`: the binding most recently `set` for `k`, if any. -/
def mapGet (m : List (Nat × Rat)) (k : Nat) : Option Rat :=
  (m.find? (fun p => p.1 == k)).map Prod.snd

/-- `rateMap` construction for the non-fixed branch
(`ConsumptionChart.tsx:518-528`): each rate is inserted under the key
`format(new Date(rate.valid_from), "yyyy-MM-dd'T'HH:mm:ss'Z'")`, i.e. its
`valid_from` instant; `valid_to` is never consulted. -/
def buildRateMap (rates : List Rate) : List (Nat × Rat) :=
  rates.foldl (fun m r => mapSet m r.valid_from r.value_inc_vat) []

/-- Per-reading price resolution as `chartData` performs it
(`ConsumptionChart.tsx:569,578-584,594`): a single-entry rate table is used
directly for every reading; otherwise the reading's `interval_start` is looked
up in `rateMap` by exact key match. -/
def resolvePrice (rates : List Rate) (t : Nat) : Option Rat :=
  match rates with
  | [r] => some r.value_inc_vat
  | _ => mapGet (buildRateMap rates) t

/-! ## Rate resolution as the spec describes it (for refinement comparison)

The spec says the resolved price is the `valueIncVat` of the entry whose
half-open window `[validFrom, validTo)` contains the timestamp, first match
in input order winning. -/

/-- Does `[validFrom, validTo)` contain `t`?  A `null` `validTo` is an
open-ended window. -/
def rateWindowContains (r : Rate) (t : Nat) : Bool :=
  r.valid_from ≤ t && (match r.valid_to with
    | some e => t < e
    | none => true)

/-- The spec's words for rate resolution on a non-fixed table: first entry in
input order whose validity window contains the timestamp. -/
def specResolveRate (rates : List Rate) (t : Nat) : Option Rat :=
  (rates.find? (fun r => rateWindowContains r t)).map Rate.value_inc_vat

/-! ## Daily aggregation (`chartData`, multi-day branch)

`ConsumptionChart.tsx:557-591`.  When the query window spans more than one
day (`daysDifference > 1`), readings are grouped by the calendar day of
`interval_start` into an insertion-ordered record; each reading adds its
consumption, bumps `readingCount`, and — on a non-single rate table — folds a
successfully resolved, nonzero price into a running average
(`newAvg = (oldAvg*n + price)/(n+1)`).  We model previous-period processing
switched off (`showPreviousPeriod` false), which leaves the accumulator
untouched. -/

/-- Per-day accumulator created and mutated by the `sortedData.reduce` in
`chartData` (fields the statistics consume; presentation-only fields such as
`formattedDate` are omitted). -/
structure DayAcc where
  value : Rat
  price : Rat
  readingCount : Nat
  priceReadings : Nat
  deriving Repr, DecidableEq

/-- The fresh accumulator for a day's first reading
(`ConsumptionChart.tsx:562-576`): `value: 0`, `price` seeded with the single
rate's value when `rates.length === 1` and `0` otherwise, counters `0`. -/
def initDay (rates : List Rate) : DayAcc :=
  { value := 0
    price := match rates with
      | [r] => r.value_inc_vat
      | _ => 0
    readingCount := 0
    priceReadings := 0 }

/-- One reading folded into its day's accumulator
(`ConsumptionChart.tsx:577-585`): add consumption; when `rates.length !== 1`
and the rate lookup yields a truthy (present and nonzero) price, update the
running average and bump `priceReadings`; always bump `readingCount`. -/
def updateDay (rates : List Rate) (r : Reading) (d : DayAcc) : DayAcc :=
  let d1 : DayAcc := { d with value := d.value + r.consumption }
  let d2 : DayAcc :=
    if rates.length ≠ 1 then
      match mapGet (buildRateMap rates) r.interval_start with
      | some p =>
          if p ≠ 0 then
            { d1 with
              price := (d1.price * d1.priceReadings + p) / (d1.priceReadings + 1)
              priceReadings := d1.priceReadings + 1 }
          else d1
      | none => d1
    else d1
  { d2 with readingCount := d2.readingCount + 1 }

/-- One step of the `sortedData.reduce`: route the reading to its day key
(`format(interval_start, 'yyyy-MM-dd')`), creating the day at the end of the
record when absent (string keys of a JS object preserve insertion order). -/
def groupStep (rates : List Rate) (acc : List (Nat × DayAcc)) (r : Reading) :
    List (Nat × DayAcc) :=
  let k := dayOf r.interval_start
  if acc.any (fun p => p.1 == k) then
    acc.map (fun p => if p.1 == k then (p.1, updateDay rates r p.2) else p)
  else
    acc ++ [(k, updateDay rates r (initDay rates))]

/-- The whole grouping `reduce` over the (sorted) readings. -/
def groupByDay (rates : List Rate) (readings : List Reading) :
    List (Nat × DayAcc) :=
  readings.foldl (groupStep rates) []

/-- One point of `chartData`/`finalChartData` (fields the statistics
consume). -/
structure ChartPoint where
  date : Nat
  value : Rat
  price : Rat
  readingCount : Nat
  priceReadings : Nat
  hasData : Bool
  deriving Repr, DecidableEq

/-- `Object.entries(...).map` closing the multi-day branch
(`ConsumptionChart.tsx:588-591`): each day entry becomes a chart point whose
`hasData` is recomputed as `readingCount >= 40 && value > 0`. -/
def chartDataPoints (rates : List Rate) (readings : List Reading) :
    List ChartPoint :=
  (groupByDay rates readings).map (fun p =>
    { date := p.1
      value := p.2.value
      price := p.2.price
      readingCount := p.2.readingCount
      priceReadings := p.2.priceReadings
      hasData := decide (40 ≤ p.2.readingCount) && decide ((0 : Rat) < p.2.value) })

/-! ## The zero-filled 30-day chart series (`finalChartData`)

`ConsumptionChart.tsx:663-704`.  A map of expected dates is seeded with 30
consecutive days starting at the first reading, chart points are merged in,
the union of dates is sorted, each date missing from `chartData` becomes a
zero point, and the result is truncated to 30 entries.  Previous-period
processing is modelled switched off. -/

/-- The zero-valued placeholder produced for a date with no chart point
(`ConsumptionChart.tsx:689-700`). -/
def zeroPoint (d : Nat) : ChartPoint :=
  { date := d, value := 0, price := 0, readingCount := 0, priceReadings := 0
    hasData := false }

/-- `parseISO(sortedData[0].interval_start)`: the earliest reading start. -/
def minStart : List Reading → Nat
  | [] => 0
  | r :: rs => rs.foldl (fun m x => min m x.interval_start) r.interval_start

/-- The 30-iteration loop seeding `expectedDates`
(`ConsumptionChart.tsx:665-668`): days `firstDay, …, firstDay+29`. -/
def expectedDates30 (firstDay : Nat) : List Nat :=
  (List.range 30).map (fun i => firstDay + i)

/-- Keys of the `expectedDates` map after chart points are marked, sorted
ascending (`Array.from(expectedDates.keys()).sort()`); `dedup` models the
key-set semantics of the JS `Map`. -/
def allDatesOf (firstDay : Nat) (pts : List ChartPoint) : List Nat :=
  ((expectedDates30 firstDay ++ pts.map ChartPoint.date).dedup).insertionSort (· ≤ ·)

/-- `finalChartData`: every expected date resolved to its chart point
(`chartData.find(d => d.date === date)`) or to a zero point, truncated to 30
days (`.slice(0, 30)`). -/
def finalChartData (rates : List Rate) (readings : List Reading) :
    List ChartPoint :=
  ((allDatesOf (dayOf (minStart readings)) (chartDataPoints rates readings)).map
    (fun d =>
      match (chartDataPoints rates readings).find? (fun p => p.date == d) with
      | some p => p
      | none => zeroPoint d)).take 30

/-! ## Cost statistics (`ConsumptionChart.tsx:716-802`) -/

/-- `total`: sum of `value` over `finalChartData`
(`ConsumptionChart.tsx:717`). -/
def totalOf (pts : List ChartPoint) : Rat :=
  (pts.map ChartPoint.value).sum

/-- `finalChartData.reduce((sum, item) => sum + (item.price || 0), 0)`. -/
def priceSumOf (pts : List ChartPoint) : Rat :=
  (pts.map ChartPoint.price).sum

/-- `finalChartData.filter(item => item.price).length`: the number of chart
points with a truthy (nonzero) price. -/
def priceCountOf (pts : List ChartPoint) : Nat :=
  (pts.filter (fun p => p.price ≠ 0)).length

/-- The usage term of `calculateTotalCost` (`ConsumptionChart.tsx:792-793`):
`total × Σ price / (count_of_nonzero_prices × 100)`.  (When the count is zero
the JS code produces `NaN`; `Rat` division by zero yields `0` — every claim
below stays away from that degenerate point.) -/
def usageCost (pts : List ChartPoint) : Rat :=
  totalOf pts * priceSumOf pts / (priceCountOf pts * 100)

/-- `numberOfDays`: the number of distinct dates among the chart points
(`Object.keys(dailyTotals).length`, `ConsumptionChart.tsx:739-746`). -/
def numberOfDaysOf (pts : List ChartPoint) : Nat :=
  ((pts.map ChartPoint.date).dedup).length

/-- `calculateTotalCost` (`ConsumptionChart.tsx:790-802`): the usage term,
plus `standingCharge × numberOfDays / 100` when the standing charge is
present-and-truthy and `numberOfDays > 0`.  The `standingCharge` prop is the
`value_inc_vat` of the selected charge. -/
def calculateTotalCost (pts : List ChartPoint) (standingCharge : Option Rat) :
    Rat :=
  match standingCharge with
  | some sc =>
      if sc ≠ 0 ∧ 0 < numberOfDaysOf pts then
        usageCost pts + sc * numberOfDaysOf pts / 100
      else usageCost pts
  | none => usageCost pts

/-- The total-cost formula in the words of the spec: sum over readings of
`consumption × price_at(reading)` over 100 (readings with no resolvable price
excluded), plus `standingCharge × numberOfDays / 100` when a standing charge
is present. -/
def specTotalCost (rates : List Rate) (readings : List Reading)
    (standingCharge : Option Rat) (nDays : Nat) : Rat :=
  (readings.map (fun r =>
    r.consumption * ((resolvePrice rates r.interval_start).getD 0))).sum / 100
  + (match standingCharge with
     | some sc => sc * nDays / 100
     | none => 0)

/-! ## Standing-charge selection (`OctopusContext.tsx:317-326`)

`tariffData.electricityStandingCharges.results.sort((a, b) =>
new Date(b.valid_from).getTime() - new Date(a.valid_from).getTime())[0]` —
a stable descending sort by `valid_from`, then the first element.  There is
no filtering by current validity. -/

/-- Descending-by-`valid_from` comparison used by the `.sort` call. -/
def chargeGE (a b : StandingCharge) : Prop := b.valid_from ≤ a.valid_from

instance : DecidableRel chargeGE := fun a b => Nat.decLe b.valid_from a.valid_from

instance : IsTotal StandingCharge chargeGE :=
  ⟨fun a b => (Nat.le_total a.valid_from b.valid_from).symm⟩

instance : IsTrans StandingCharge chargeGE :=
  ⟨fun _ _ _ hab hbc => Nat.le_trans hbc hab⟩

/-- The selection in `fetchData`: stable descending sort by `valid_from`,
take the first entry (`undefined`, i.e. `none`, on an empty list). -/
def selectStandingCharge (charges : List StandingCharge) :
    Option StandingCharge :=
  (charges.insertionSort chargeGE).head?

/-- Does the validity window of a standing charge contain `now`? -/
def chargeWindowContains (c : StandingCharge) (now : Nat) : Bool :=
  c.valid_from ≤ now && (match c.valid_to with
    | some e => now < e
    | none => true)

/-- Standing-charge selection in the words of the spec: among entries whose
validity window contains `now`, the one with the latest `validFrom`; `none`
when no entry is currently valid. -/
def specCurrentCharge (charges : List StandingCharge) (now : Nat) :
    Option StandingCharge :=
  ((charges.filter (fun c => chargeWindowContains c now)).insertionSort
    chargeGE).head?

/-! ## Client cache (`ClientCache`)

The cache module: a `Map<string, { data, timestamp }>` plus a single
configured TTL.  `set(key, data, ttl?)` stores `{ data, timestamp: Date.now() }`
— the `ttl` argument is accepted but never read.  `get` lazily deletes and
returns `null` when `Date.now() - timestamp > config.ttl`.  `Date.now()` is
passed explicitly as a `now` argument. -/

/-- `CacheItem<T>`: stored data plus the storage instant. -/
structure CacheItem (α : Type) where
  data : α
  timestamp : Nat
  deriving Repr, DecidableEq

/-- The cache state: the backing map (unique keys) and the configured TTL
(default 24 h in the source). -/
structure ClientCache (α : Type) where
  cache : List (String × CacheItem α)
  ttl : Nat
  deriving Repr, DecidableEq

/-- `createDateRangeKey`: the composite key `` `${key}_${from}_${to}` ``. -/
def createDateRangeKey (key fromS toS : String) : String :=
  key ++ "_" ++ fromS ++ "_" ++ toS

/-- `ClientCache.set(key, data, ttl?)`: store `{data, timestamp: now}` —
the `ttlArg` parameter is declared by the source but ignored. -/
def ClientCache.set {α : Type} (c : ClientCache α) (k : String) (d : α)
    (ttlArg : Option Nat) (now : Nat) : ClientCache α :=
  { c with cache := (k, ⟨d, now⟩) :: c.cache.filter (fun p => p.1 ≠ k) }

/-- `ClientCache.get(key)` at instant `now`: `null` on a miss; on a hit,
delete and return `null` when `now - timestamp > config.ttl`, otherwise the
data.  Returns the (possibly shrunk) cache alongside the result. -/
def ClientCache.get {α : Type} (c : ClientCache α) (k : String) (now : Nat) :
    Option α × ClientCache α :=
  match c.cache.find? (fun p => p.1 == k) with
  | none => (none, c)
  | some item =>
      if c.ttl < now - item.2.timestamp then
        (none, { c with cache := c.cache.filter (fun p => p.1 ≠ k) })
      else (some item.2.data, c)

/-- `getDateRangeData(baseKey, from, to)`. -/
def ClientCache.getDateRangeData {α : Type} (c : ClientCache α)
    (baseKey fromS toS : String) (now : Nat) : Option α × ClientCache α :=
  c.get (createDateRangeKey baseKey fromS toS) now

/-- `setDateRangeData(baseKey, from, to, data, ttl?)`. -/
def ClientCache.setDateRangeData {α : Type} (c : ClientCache α)
    (baseKey fromS toS : String) (d : α) (ttlArg : Option Nat) (now : Nat) :
    ClientCache α :=
  c.set (createDateRangeKey baseKey fromS toS) d ttlArg now

/-! ## Percentage change (`calculateChange`, dashboard page) -/

/-- `calculateChange(current, previous)`: `null` below the `0.1` kWh
threshold on `previous`, else `(current - previous) / previous * 100`. -/
def calculateChange (current previous : Rat) : Option Rat :=
  if previous < 1 / 10 then none
  else some ((current - previous) / previous * 100)

/-! ## Missing-zone detection (`ConsumptionChart.tsx:154-200`)

A `forEach` over the sorted expected dates with three mutable slots:
the accumulated `missingZones`, the open `currentZone`, and `lastGoodDate`.
A day is *bad* when its reading count is below 40.  The per-date count is
`readingsPerDay[date] || 0`, modelled as a total function `count`.  The final
open zone is closed at one day past `Array.from(expectedDates.keys()).sort()
.pop()`, i.e. one past the maximum expected date. -/

/-- The mutable state of the `forEach` over expected dates. -/
structure ZoneState where
  zones : List (Nat × Nat)
  currentZone : Option (Nat × Nat)
  lastGoodDate : Option Nat
  deriving Repr, DecidableEq

/-- One date processed (`ConsumptionChart.tsx:162-187`). -/
def zoneStep (count : Nat → Nat) (st : ZoneState) (d : Nat) : ZoneState :=
  if count d < 40 then
    match st.currentZone, st.lastGoodDate with
    | none, some g => { st with currentZone := some (g, d) }
    | some sz, _ => { st with currentZone := some (sz.1, d) }
    | none, none => st
  else
    match st.currentZone with
    | some sz =>
        { zones := st.zones ++ [(sz.1, d)], currentZone := none
          lastGoodDate := some d }
    | none => { st with lastGoodDate := some d }

/-- `sort().pop()` over the expected-date keys: their maximum. -/
def lastExpected (dates : List Nat) : Nat := dates.foldl max 0

/-- Close a still-open zone at `fin` (`ConsumptionChart.tsx:190-200`). -/
def finishZones (st : ZoneState) (fin : Nat) : List (Nat × Nat) :=
  match st.currentZone with
  | some sz => st.zones ++ [(sz.1, fin)]
  | none => st.zones

/-- The complete `missingZones` computation over the expected dates. -/
def missingZones (count : Nat → Nat) (dates : List Nat) : List (Nat × Nat) :=
  finishZones (dates.foldl (zoneStep count) ⟨[], none, none⟩)
    (lastExpected dates + 1)

/-! ## Declarative reformulation of the zone state machine

`goodRun g l` emits the zones of `l` given that the nearest good day so far
is `g`; `gapRun s l` emits the zones of `l` while inside a run of bad days
whose zone opened at the good day `s` — the run is extended while days stay
bad, closed at the first good day (so each emitted zone spans a maximal
contiguous run of bad days), or closed at `fin` when the input ends; and
`leadRun` skips the leading bad days seen before any good day, emitting
nothing for them. -/

mutual

/-- State after a good day `g`: bad day opens a gap at `g`. -/
def goodRun (count : Nat → Nat) (fin : Nat) (g : Nat) :
    List Nat → List (Nat × Nat)
  | [] => []
  | d :: rest =>
      if count d < 40 then gapRun count fin g rest
      else goodRun count fin d rest

/-- Inside a gap opened at good day `s`: good day closes the zone. -/
def gapRun (count : Nat → Nat) (fin : Nat) (s : Nat) :
    List Nat → List (Nat × Nat)
  | [] => [(s, fin)]
  | d :: rest =>
      if count d < 40 then gapRun count fin s rest
      else (s, d) :: goodRun count fin d rest

end

/-- Before any good day: leading bad days produce no zone. -/
def leadRun (count : Nat → Nat) (fin : Nat) : List Nat → List (Nat × Nat)
  | [] => []
  | d :: rest =>
      if count d < 40 then leadRun count fin rest
      else goodRun count fin d rest

/-- The declarative description of the zone scan. -/
def specZones (count : Nat → Nat) (dates : List Nat) : List (Nat × Nat) :=
  leadRun count (lastExpected dates + 1) dates


/-! ## Derived specification-side functions and concrete test fixtures -/

/-- Arithmetic sum of `consumption` over the readings whose `intervalStart`
falls on UTC day `k` (the spec-side description of a day total). -/
def sumFor (k : Nat) (readings : List Reading) : Rat :=
  ((readings.filter (fun r => dayOf r.interval_start == k)).map
    Reading.consumption).sum

/-- Two readings on day 0 and day 2 (instants in minutes), 1 kWh and 2 kWh. -/
def c2readings : List Reading := [⟨0, 30, 1⟩, ⟨2880, 2910, 2⟩]

/-- Two rates, 10 p/kWh from instant 0 and 20 p/kWh from instant 2880, both
resolvable by exact `valid_from` lookup for `c2readings`. -/
def c2rates : List Rate := [⟨0, none, 10, none⟩, ⟨2880, none, 20, none⟩]

/-- The 30-day zero-filled chart series `finalChartData c2rates c2readings`
evaluates to (verified in `c2_stage3`). -/
def c2pts : List ChartPoint :=
  [⟨0, 1, 10, 1, 1, false⟩,
   ⟨1, 0, 0, 0, 0, false⟩,
   ⟨2, 2, 20, 1, 1, false⟩,
   ⟨3, 0, 0, 0, 0, false⟩,
   ⟨4, 0, 0, 0, 0, false⟩,
   ⟨5, 0, 0, 0, 0, false⟩,
   ⟨6, 0, 0, 0, 0, false⟩,
   ⟨7, 0, 0, 0, 0, false⟩,
   ⟨8, 0, 0, 0, 0, false⟩,
   ⟨9, 0, 0, 0, 0, false⟩,
   ⟨10, 0, 0, 0, 0, false⟩,
   ⟨11, 0, 0, 0, 0, false⟩,
   ⟨12, 0, 0, 0, 0, false⟩,
   ⟨13, 0, 0, 0, 0, false⟩,
   ⟨14, 0, 0, 0, 0, false⟩,
   ⟨15, 0, 0, 0, 0, false⟩,
   ⟨16, 0, 0, 0, 0, false⟩,
   ⟨17, 0, 0, 0, 0, false⟩,
   ⟨18, 0, 0, 0, 0, false⟩,
   ⟨19, 0, 0, 0, 0, false⟩,
   ⟨20, 0, 0, 0, 0, false⟩,
   ⟨21, 0, 0, 0, 0, false⟩,
   ⟨22, 0, 0, 0, 0, false⟩,
   ⟨23, 0, 0, 0, 0, false⟩,
   ⟨24, 0, 0, 0, 0, false⟩,
   ⟨25, 0, 0, 0, 0, false⟩,
   ⟨26, 0, 0, 0, 0, false⟩,
   ⟨27, 0, 0, 0, 0, false⟩,
   ⟨28, 0, 0, 0, 0, false⟩,
   ⟨29, 0, 0, 0, 0, false⟩]

/-- A single chart point with nonzero price, for the C2 witness. -/
def c2wpt : ChartPoint := ⟨0, 2, 5, 1, 1, false⟩

/-- A reading fixture for the C3 witness. -/
def c3readings : List Reading := [⟨0, 30, 1⟩]

/-- A standing charge whose validity window `[0, 10)` has expired by `now = 15`. -/
def c4expired : StandingCharge := ⟨0, some 10, 5⟩

/-- A standing charge starting at instant 5, open-ended. -/
def c4a : StandingCharge := ⟨5, none, 1⟩

/-- A standing charge starting at instant 20, the latest `validFrom`. -/
def c4b : StandingCharge := ⟨20, some 30, 7⟩

/-- A reading fixture for the C5 witness. -/
def c5readings : List Reading := [⟨0, 30, 1⟩]

/-- Reading counts with a leading bad day: day 0 has 0 readings, day 1 has
48. -/
def c6count : Nat → Nat := fun d => if d = 1 then 48 else 0

/-- Reading counts where only day 1 reaches the 40-reading threshold. -/
def c7count : Nat → Nat := fun d => if d = 1 then 48 else 0

/-- An empty cache with a 100-minute TTL. -/
def c8cache : ClientCache Nat := ⟨[], 100⟩

/-- A rate table whose entry at instant 0 has `value_inc_vat = 0`. -/
def c10rates : List Rate := [⟨0, none, 0, none⟩, ⟨1, none, 5, none⟩]

/-- A reading at instant 0, whose rate lookup in `c10rates` yields price 0. -/
def c10reading : Reading := ⟨0, 30, 1⟩

/-- Generalised state-machine unrolling: folding `zoneStep` from any of the three reachable state shapes and then closing the open zone equals the corresponding declarative scan. -/
theorem zones_fold_eq (count : Nat → Nat) (fin : Nat) :
    ∀ l : List Nat,
      (∀ zones, finishZones (l.foldl (zoneStep count) ⟨zones, none, none⟩) fin
          = zones ++ leadRun count fin l)
      ∧ (∀ zones g, finishZones (l.foldl (zoneStep count) ⟨zones, none, some g⟩) fin
          = zones ++ goodRun count fin g l)
      ∧ (∀ zones s e lg,
          finishZones (l.foldl (zoneStep count) ⟨zones, some (s, e), lg⟩) fin
          = zones ++ gapRun count fin s l) := by
  intro l
  induction l with
  | nil =>
      refine ⟨?_, ?_, ?_⟩
      · intro zones; simp [finishZones, leadRun]
      · intro zones g; simp [finishZones, goodRun]
      · intro zones s e lg; simp [finishZones, gapRun]
  | cons d rest ih =>
      obtain ⟨ihLead, ihGood, ihGap⟩ := ih
      by_cases hd : count d < 40
      · refine ⟨?_, ?_, ?_⟩
        · intro zones
          simp [List.foldl_cons, zoneStep, if_pos hd, leadRun, hd, ihLead]
        · intro zones g
          simp [List.foldl_cons, zoneStep, if_pos hd, goodRun, hd, ihGap]
        · intro zones s e lg
          simp [List.foldl_cons, zoneStep, if_pos hd, gapRun, hd, ihGap]
      · refine ⟨?_, ?_, ?_⟩
        · intro zones
          simp [List.foldl_cons, zoneStep, if_neg hd, leadRun, hd, ihGood]
        · intro zones g
          simp [List.foldl_cons, zoneStep, if_neg hd, goodRun, hd, ihGood]
        · intro zones s e lg
          simp [List.foldl_cons, zoneStep, if_neg hd, gapRun, hd, ihGood,
            List.append_assoc]

/-- The imperative zone scan equals the declarative one on every input. -/
theorem missingZones_eq_specZones (count : Nat → Nat) (dates : List Nat) :
    missingZones count dates = specZones count dates := by
  have h := (zones_fold_eq count (lastExpected dates + 1) dates).1
  simpa [missingZones, specZones] using h []

-- membership lemma: every zone start is a good member
/-- Every zone emitted by `goodRun`/`gapRun` starts at a day meeting the 40-reading threshold, drawn from the seed or the remaining input. -/
theorem zones_starts_good (count : Nat → Nat) (fin : Nat) :
    ∀ l : List Nat,
      (∀ g, 40 ≤ count g →
        ∀ z ∈ goodRun count fin g l, 40 ≤ count z.1 ∧ (z.1 = g ∨ z.1 ∈ l))
      ∧ (∀ s, 40 ≤ count s →
        ∀ z ∈ gapRun count fin s l, 40 ≤ count z.1 ∧ (z.1 = s ∨ z.1 ∈ l)) := by
  intro l
  induction l with
  | nil =>
      refine ⟨?_, ?_⟩
      · intro g hg z hz; simp [goodRun] at hz
      · intro s hs z hz
        simp only [gapRun, List.mem_singleton] at hz
        subst hz
        exact ⟨hs, Or.inl rfl⟩
  | cons d rest ih =>
      obtain ⟨ihGood, ihGap⟩ := ih
      by_cases hd : count d < 40
      · refine ⟨?_, ?_⟩
        · intro g hg z hz
          simp only [goodRun, if_pos hd] at hz
          rcases ihGap g hg z hz with ⟨h1, h2⟩
          exact ⟨h1, h2.imp id (List.mem_cons_of_mem d)⟩
        · intro s hs z hz
          simp only [gapRun, if_pos hd] at hz
          rcases ihGap s hs z hz with ⟨h1, h2⟩
          exact ⟨h1, h2.imp id (List.mem_cons_of_mem d)⟩
      · have hd40 : 40 ≤ count d := Nat.le_of_not_lt hd
        refine ⟨?_, ?_⟩
        · intro g hg z hz
          simp only [goodRun, if_neg hd] at hz
          rcases ihGood d hd40 z hz with ⟨h1, h2⟩
          refine ⟨h1, Or.inr ?_⟩
          rcases h2 with h2 | h2
          · exact h2 ▸ List.mem_cons_self d rest
          · exact List.mem_cons_of_mem d h2
        · intro s hs z hz
          simp only [gapRun, if_neg hd] at hz
          rcases List.mem_cons.mp hz with hz | hz
          · subst hz; exact ⟨hs, Or.inl rfl⟩
          · rcases ihGood d hd40 z hz with ⟨h1, h2⟩
            refine ⟨h1, Or.inr ?_⟩
            rcases h2 with h2 | h2
            · exact h2 ▸ List.mem_cons_self d rest
            · exact List.mem_cons_of_mem d h2

/-- Every zone emitted by the full scan starts at a day of the input that meets the 40-reading threshold. -/
theorem leadRun_starts_good (count : Nat → Nat) (fin : Nat) :
    ∀ l : List Nat, ∀ z ∈ leadRun count fin l, 40 ≤ count z.1 ∧ z.1 ∈ l := by
  intro l
  induction l with
  | nil => intro z hz; simp [leadRun] at hz
  | cons d rest ih =>
      intro z hz
      by_cases hd : count d < 40
      · simp only [leadRun, if_pos hd] at hz
        rcases ih z hz with ⟨h1, h2⟩
        exact ⟨h1, List.mem_cons_of_mem d h2⟩
      · have hd40 : 40 ≤ count d := Nat.le_of_not_lt hd
        simp only [leadRun, if_neg hd] at hz
        rcases (zones_starts_good count fin rest).1 d hd40 z hz with ⟨h1, h2⟩
        refine ⟨h1, ?_⟩
        rcases h2 with h2 | h2
        · exact h2 ▸ List.mem_cons_self d rest
        · exact List.mem_cons_of_mem d h2

/-- When every day fails the threshold, the scan emits nothing. -/
theorem leadRun_all_bad (count : Nat → Nat) (fin : Nat) :
    ∀ l : List Nat, (∀ d ∈ l, count d < 40) → leadRun count fin l = [] := by
  intro l
  induction l with
  | nil => intro _; rfl
  | cons d rest ih =>
      intro h
      have hd : count d < 40 := h d (List.mem_cons_self d rest)
      simp only [leadRun, if_pos hd]
      exact ih (fun x hx => h x (List.mem_cons_of_mem d hx))


/-- `updateDay` always adds the consumption to `value`, whatever the price branch does. -/
theorem updateDay_value (rates : List Rate) (r : Reading) (d : DayAcc) :
    (updateDay rates r d).value = d.value + r.consumption := by
  unfold updateDay
  rcases h : mapGet (buildRateMap rates) r.interval_start with _ | p
  · by_cases hl : rates.length ≠ 1 <;> simp [h, hl]
  · by_cases hl : rates.length ≠ 1
    · by_cases hp : p ≠ 0 <;> simp [h, hl, hp]
    · simp [h, hl]

/-- `updateDay` always increments `readingCount`. -/
theorem updateDay_readingCount (rates : List Rate) (r : Reading) (d : DayAcc) :
    (updateDay rates r d).readingCount = d.readingCount + 1 := by
  unfold updateDay
  rcases h : mapGet (buildRateMap rates) r.interval_start with _ | p
  · by_cases hl : rates.length ≠ 1 <;> simp [h, hl]
  · by_cases hl : rates.length ≠ 1
    · by_cases hp : p ≠ 0 <;> simp [h, hl, hp]
    · simp [h, hl]

/-- Unrolling the grouping fold at its last reading. -/
theorem groupByDay_append (rates : List Rate) (rs : List Reading) (r : Reading) :
    groupByDay rates (rs ++ [r]) = groupStep rates (groupByDay rates rs) r := by
  simp [groupByDay, List.foldl_append]

/-- A day total over `rs ++ [r]` adds the consumption of `r` exactly when `r` falls on that day. -/
theorem sumFor_append (k : Nat) (rs : List Reading) (r : Reading) :
    sumFor k (rs ++ [r])
      = sumFor k rs
        + (if dayOf r.interval_start = k then r.consumption else 0) := by
  by_cases h : dayOf r.interval_start = k <;>
    simp [sumFor, List.filter_append, h]

/-- Grouping invariant: day keys are distinct, a day key is present exactly when some reading falls on it, and each accumulator holds the sum of consumption of the readings on its day. -/
theorem groupByDay_inv (rates : List Rate) (readings : List Reading) :
    ((groupByDay rates readings).map Prod.fst).Nodup
    ∧ (∀ k, k ∈ (groupByDay rates readings).map Prod.fst
        ↔ ∃ r ∈ readings, dayOf r.interval_start = k)
    ∧ (∀ k d, (k, d) ∈ groupByDay rates readings → d.value = sumFor k readings) := by
  induction readings using List.reverseRecOn with
  | nil => simp [groupByDay]
  | append_singleton rs r ih =>
      obtain ⟨ihN, ihK, ihV⟩ := ih
      rw [groupByDay_append]
      set acc := groupByDay rates rs with hacc
      by_cases hmem : acc.any (fun p => p.1 == dayOf r.interval_start)
      · -- the day key already exists: in-place update via map
        have hstep : groupStep rates acc r
            = acc.map (fun p => if p.1 == dayOf r.interval_start
                then (p.1, updateDay rates r p.2) else p) := by
          simp only [groupStep, hmem, if_pos]
        have hfst : (acc.map (fun p => if p.1 == dayOf r.interval_start
            then (p.1, updateDay rates r p.2) else p)).map Prod.fst
            = acc.map Prod.fst := by
          rw [List.map_map]
          apply List.map_congr_left
          intro p _
          by_cases h : p.1 = dayOf r.interval_start <;> simp [h]
        have hk0mem : dayOf r.interval_start ∈ acc.map Prod.fst := by
          rcases List.any_eq_true.mp hmem with ⟨p, hp, hpk⟩
          exact List.mem_map.mpr ⟨p, hp, beq_iff_eq.mp hpk⟩
        refine ⟨?_, ?_, ?_⟩
        · rw [hstep, hfst]; exact ihN
        · intro k
          rw [hstep, hfst, ihK k]
          constructor
          · rintro ⟨r', hr', hd⟩
            exact ⟨r', List.mem_append_left _ hr', hd⟩
          · rintro ⟨r', hr', hd⟩
            rcases List.mem_append.mp hr' with h | h
            · exact ⟨r', h, hd⟩
            · have hrr : r' = r := List.mem_singleton.mp h
              have hd' : dayOf r.interval_start = k := hrr ▸ hd
              obtain ⟨r'', h1, h2⟩ := (ihK (dayOf r.interval_start)).mp hk0mem
              exact ⟨r'', h1, h2.trans hd'⟩
        · intro k d hkd
          rw [hstep] at hkd
          rcases List.mem_map.mp hkd with ⟨p, hp, hpe⟩
          by_cases hpk : p.1 == dayOf r.interval_start
          · rw [if_pos hpk] at hpe
            have hk : k = p.1 := (congrArg Prod.fst hpe).symm
            have hd : d = updateDay rates r p.2 := (congrArg Prod.snd hpe).symm
            have hp1 : p.1 = dayOf r.interval_start := beq_iff_eq.mp hpk
            have hv : p.2.value = sumFor p.1 rs := ihV p.1 p.2 hp
            rw [hd, updateDay_value, hv, hk, sumFor_append, hp1, if_pos rfl]
          · rw [if_neg hpk] at hpe
            subst hpe
            have hkk0 : k ≠ dayOf r.interval_start := fun h => hpk (by simp [h])
            rw [sumFor_append, if_neg (fun h => hkk0 h.symm), ihV k d hp,
              add_zero]
      · -- a new day key: appended at the end
        have hstep : groupStep rates acc r
            = acc ++ [(dayOf r.interval_start, updateDay rates r (initDay rates))] := by
          simp only [groupStep, hmem, if_neg, Bool.false_eq_true,
            not_false_iff, if_false]
        have hk0notmem : dayOf r.interval_start ∉ acc.map Prod.fst := by
          intro h
          rcases List.mem_map.mp h with ⟨p, hp, hpk⟩
          exact hmem (List.any_eq_true.mpr ⟨p, hp, by simp [hpk]⟩)
        have hsum0 : sumFor (dayOf r.interval_start) rs = 0 := by
          have hfil : rs.filter
              (fun r' => dayOf r'.interval_start == dayOf r.interval_start) = [] := by
            apply List.filter_eq_nil_iff.mpr
            intro r' hr'
            simp only [beq_iff_eq]
            intro h
            exact hk0notmem ((ihK (dayOf r.interval_start)).mpr ⟨r', hr', h⟩)
          simp [sumFor, hfil]
        refine ⟨?_, ?_, ?_⟩
        · rw [hstep]
          simp only [List.map_append, List.map_cons, List.map_nil]
          exact List.nodup_append.mpr ⟨ihN, List.nodup_singleton _,
            by simpa using fun h => hk0notmem h⟩
        · intro k
          rw [hstep, List.map_append]
          constructor
          · intro h
            rcases List.mem_append.mp h with h | h
            · obtain ⟨r', hr', hd⟩ := (ihK k).mp h
              exact ⟨r', List.mem_append_left _ hr', hd⟩
            · have hk : k = dayOf r.interval_start := by simpa using h
              exact ⟨r, List.mem_append_right _ (List.mem_singleton_self r), hk.symm⟩
          · rintro ⟨r', hr', hd⟩
            rcases List.mem_append.mp hr' with h | h
            · exact List.mem_append_left _ ((ihK k).mpr ⟨r', h, hd⟩)
            · have hrr : r' = r := List.mem_singleton.mp h
              have hd' : dayOf r.interval_start = k := hrr ▸ hd
              apply List.mem_append_right
              simp [hd'.symm]
        · intro k d hkd
          rw [hstep] at hkd
          rcases List.mem_append.mp hkd with h | h
          · have hkk0 : k ≠ dayOf r.interval_start := fun he =>
              hk0notmem (he ▸ List.mem_map.mpr ⟨(k, d), h, rfl⟩)
            rw [sumFor_append, if_neg (fun h' => hkk0 h'.symm), ihV k d h,
              add_zero]
          · have he := List.mem_singleton.mp h
            have hke : k = dayOf r.interval_start := congrArg Prod.fst he
            have hde : d = updateDay rates r (initDay rates) := congrArg Prod.snd he
            rw [hde, updateDay_value, hke, sumFor_append, if_pos rfl, hsum0]
            simp [initDay]

/-- The rate map is the reversed list of `(valid_from, value_inc_vat)` pairs, so the earliest binding seen by `find?` is the one inserted last. -/
theorem buildRateMap_eq (rates : List Rate) :
    buildRateMap rates
      = (rates.map (fun r => (r.valid_from, r.value_inc_vat))).reverse := by
  suffices h : ∀ init, rates.foldl (fun m r => mapSet m r.valid_from r.value_inc_vat) init
      = (rates.map fun r => (r.valid_from, r.value_inc_vat)).reverse ++ init by
    simpa [buildRateMap] using h []
  induction rates with
  | nil => intro init; simp
  | cons a l ih =>
      intro init
      have h := ih ((a.valid_from, a.value_inc_vat) :: init)
      simp only [mapSet] at h
      simp only [List.foldl_cons, mapSet, h, List.map_cons, List.reverse_cons,
        List.append_assoc, List.singleton_append]

/-- Rate lookup resolves to the LAST entry in input order whose `valid_from` equals the key, if any. -/
theorem mapGet_buildRateMap (rates : List Rate) (t : Nat) :
    mapGet (buildRateMap rates) t
      = ((rates.filter (fun r => r.valid_from == t)).getLast?).map
          Rate.value_inc_vat := by
  rw [buildRateMap_eq, mapGet]
  induction rates using List.reverseRecOn with
  | nil => simp
  | append_singleton l a ih =>
      rw [List.map_append, List.reverse_append, List.filter_append]
      by_cases h : a.valid_from == t
      · simp [h, List.getLast?_concat]
      · simp only [List.map_cons, List.map_nil, List.reverse_cons,
          List.reverse_nil, List.nil_append, List.cons_append,
          List.find?_cons] at *
        simp only [h]
        simpa [h] using ih

/-- C4 (amended): the selected standing charge is an entry with the maximal `validFrom` among ALL entries — the code performs no filtering by current validity — and `none` is returned exactly when the list is empty. -/
theorem c4_standing_charge_selection (charges : List StandingCharge) :
    (selectStandingCharge charges = none ↔ charges = [])
    ∧ ∀ c, selectStandingCharge charges = some c →
        c ∈ charges ∧ ∀ e ∈ charges, e.valid_from ≤ c.valid_from := by
  have hperm := List.perm_insertionSort chargeGE charges
  have hsorted := List.sorted_insertionSort chargeGE charges
  constructor
  · rw [selectStandingCharge, List.head?_eq_none_iff]
    constructor
    · intro h
      exact List.Perm.eq_nil (h ▸ hperm).symm
    · intro h
      subst h
      rfl
  · intro c hc
    rcases hsort : List.insertionSort chargeGE charges with _ | ⟨c', rest⟩
    · rw [selectStandingCharge, hsort] at hc
      simp at hc
    · rw [selectStandingCharge, hsort] at hc
      simp only [List.head?_cons, Option.some.injEq] at hc
      subst hc
      rw [hsort] at hperm hsorted
      refine ⟨hperm.mem_iff.mp (List.mem_cons_self _ _), ?_⟩
      intro e he
      rcases List.mem_cons.mp (hperm.mem_iff.mpr he) with h | h
      · exact h ▸ Nat.le_refl _
      · exact (List.pairwise_cons.mp hsorted).1 e h

/-- With a constant price `c`, the price sum is `c` times the length. -/
theorem priceSumOf_const (pts : List ChartPoint) (c : Rat)
    (h : ∀ p ∈ pts, p.price = c) : priceSumOf pts = c * pts.length := by
  induction pts with
  | nil => simp [priceSumOf]
  | cons p l ih =>
      have hp : p.price = c := h p (List.mem_cons_self _ _)
      have hl := ih (fun q hq => h q (List.mem_cons_of_mem _ hq))
      simp only [priceSumOf, List.map_cons, List.sum_cons] at *
      rw [hp, hl, List.length_cons]
      push_cast
      ring

/-- With a constant nonzero price, every point passes the truthiness filter. -/
theorem priceCountOf_const (pts : List ChartPoint) (c : Rat) (hc : c ≠ 0)
    (h : ∀ p ∈ pts, p.price = c) : priceCountOf pts = pts.length := by
  induction pts with
  | nil => rfl
  | cons p l ih =>
      have hp : p.price = c := h p (List.mem_cons_self _ _)
      have hl := ih (fun q hq => h q (List.mem_cons_of_mem _ hq))
      have hd : (decide (p.price ≠ 0)) = true := by simp [hp, hc]
      simp only [priceCountOf] at hl ⊢
      rw [List.filter_cons, hd]
      rw [if_pos rfl]
      simp only [List.length_cons, hl]

/-- Distributing a constant factor over the value sum. -/
theorem sum_map_value_mul (pts : List ChartPoint) (c : Rat) :
    (pts.map (fun p => p.value * c)).sum = totalOf pts * c := by
  induction pts with
  | nil => simp [totalOf]
  | cons p l ih =>
      simp only [totalOf, List.map_cons, List.sum_cons] at *
      rw [ih]
      ring

/-- With a uniform nonzero price the usage cost coincides with the per-point sum-of-products formula. -/
theorem usageCost_uniform (pts : List ChartPoint) (c : Rat) (hc : c ≠ 0)
    (hne : pts ≠ []) (h : ∀ p ∈ pts, p.price = c) :
    usageCost pts = (pts.map (fun p => p.value * c)).sum / 100 := by
  have hlen : (pts.length : Rat) ≠ 0 := by
    simpa using List.length_pos.mpr hne |>.ne'
  rw [usageCost, priceSumOf_const pts c h, priceCountOf_const pts c hc h,
    sum_map_value_mul]
  field_simp
  ring

/-- After deleting a key, looking it up fails. -/
theorem find?_filter_ne {α : Type} (l : List (String × α)) (k : String) :
    (l.filter (fun p => p.1 ≠ k)).find? (fun p => p.1 == k) = none := by
  induction l with
  | nil => rfl
  | cons p l ih =>
      by_cases h : p.1 = k
      · simp [List.filter_cons, h, ih]
      · simp [List.filter_cons, h, List.find?_cons, ih]

/-- C1 (amended): for a rate table that is not a single entry, the resolved price is the `valueIncVat` of the LAST entry in input order whose `validFrom` equals the reading timestamp exactly (`none` when there is no such entry) — validity windows are never consulted; a single-entry table is applied unconditionally. -/
theorem c1_rate_resolution (rates : List Rate) (t : Nat) :
    (rates.length ≠ 1 →
      resolvePrice rates t
        = ((rates.filter (fun r => r.valid_from == t)).getLast?).map
            Rate.value_inc_vat)
    ∧ (∀ r, rates = [r] → resolvePrice rates t = some r.value_inc_vat) := by
  constructor
  · intro h
    have hm : resolvePrice rates t = mapGet (buildRateMap rates) t := by
      match rates, h with
      | [], _ => rfl
      | [r], h => exact absurd rfl h
      | a :: b :: l, _ => rfl
    rw [hm, mapGet_buildRateMap]
  · rintro r rfl
    rfl

/-- C3: for every bucket produced by the multi-day aggregation, `hasData` holds iff `readingCount ≥ 40` and `totalConsumption > 0`; a 40-reading bucket with positive total has `hasData`, and a 39-reading bucket never does. -/
theorem c3_hasData (rates : List Rate) (readings : List Reading)
    (p : ChartPoint) (hp : p ∈ chartDataPoints rates readings) :
    (p.hasData = true ↔ (40 ≤ p.readingCount ∧ 0 < p.value))
    ∧ (p.readingCount = 40 → 0 < p.value → p.hasData = true)
    ∧ (p.readingCount = 39 → p.hasData = false) := by
  rcases List.mem_map.mp hp with ⟨q, _, hq⟩
  subst hq
  refine ⟨?_, ?_, ?_⟩
  · simp [Bool.and_eq_true, decide_eq_true_iff]
  · intro h40 hv
    have h40' : q.2.readingCount = 40 := h40
    have hv' : (0 : Rat) < q.2.value := hv
    show (decide (40 ≤ q.2.readingCount) && decide ((0 : Rat) < q.2.value)) = true
    rw [h40']
    simp [hv']
  · intro h39
    have h39' : q.2.readingCount = 39 := h39
    show (decide (40 ≤ q.2.readingCount) && decide ((0 : Rat) < q.2.value)) = false
    rw [h39']
    simp

/-- C5: every bucket of the multi-day aggregation carries as `totalConsumption` the arithmetic sum of `consumption` over exactly the readings whose `intervalStart` falls on that UTC date, and a bucket exists for a date exactly when some reading falls on it. -/
theorem c5_daily_totals (rates : List Rate) (readings : List Reading) :
    (∀ p ∈ chartDataPoints rates readings, p.value = sumFor p.date readings)
    ∧ (∀ k, (∃ p ∈ chartDataPoints rates readings, p.date = k)
        ↔ ∃ r ∈ readings, dayOf r.interval_start = k) := by
  obtain ⟨_, hK, hV⟩ := groupByDay_inv rates readings
  constructor
  · intro p hp
    rcases List.mem_map.mp hp with ⟨q, hq, hpe⟩
    subst hpe
    exact hV q.1 q.2 hq
  · intro k
    rw [← hK k]
    constructor
    · rintro ⟨p, hp, hpd⟩
      rcases List.mem_map.mp hp with ⟨q, hq, hpe⟩
      subst hpe
      exact List.mem_map.mpr ⟨q, hq, hpd⟩
    · intro h
      rcases List.mem_map.mp h with ⟨q, hq, hq2⟩
      exact ⟨_, List.mem_map.mpr ⟨q, hq, rfl⟩, hq2⟩

/-- C7: a day all of whose predecessors (itself included) fall below the 40-reading threshold is covered by no reported zone, and when every expected date falls below the threshold the result contains no zones at all. -/
theorem c7_leading_gap (count : Nat → Nat) (dates : List Nat) :
    (∀ d ∈ dates, (∀ d' ∈ dates, d' ≤ d → count d' < 40) →
      ∀ z ∈ missingZones count dates, ¬(z.1 ≤ d ∧ d ≤ z.2))
    ∧ ((∀ d ∈ dates, count d < 40) → missingZones count dates = []) := by
  constructor
  · rintro d _ hlead z hz ⟨h1, _⟩
    rw [missingZones_eq_specZones] at hz
    obtain ⟨hg, hmem⟩ := leadRun_starts_good count _ dates z hz
    exact Nat.lt_irrefl _ (Nat.lt_of_lt_of_le (hlead z.1 hmem h1) hg)
  · intro h
    rw [missingZones_eq_specZones, specZones]
    exact leadRun_all_bad count _ dates h

/-- C8: `setRange` followed by `getRange` with the same base key and window returns the stored value while the elapsed time does not exceed the TTL in force, and returns `none` — lazily deleting the entry — once it does.  The TTL in force is the cache-wide configured one; the per-call `ttl` argument is accepted and ignored, exactly as in the source. -/
theorem c8_cache_roundtrip {α : Type} (c : ClientCache α)
    (baseKey fromS toS : String) (v : α) (ttlArg : Option Nat) (t0 t1 : Nat) :
    (((c.setDateRangeData baseKey fromS toS v ttlArg t0).getDateRangeData
        baseKey fromS toS t1).1
      = if c.ttl < t1 - t0 then none else some v)
    ∧ (c.ttl < t1 - t0 →
        ((((c.setDateRangeData baseKey fromS toS v ttlArg t0).getDateRangeData
            baseKey fromS toS t1).2).cache.find?
          (fun p => p.1 == createDateRangeKey baseKey fromS toS)) = none) := by
  have hfind :
      ((c.setDateRangeData baseKey fromS toS v ttlArg t0).cache.find?
        (fun p => p.1 == createDateRangeKey baseKey fromS toS))
      = some (createDateRangeKey baseKey fromS toS, ⟨v, t0⟩) := by
    simp [ClientCache.setDateRangeData, ClientCache.set, List.find?_cons]
  constructor
  · rw [ClientCache.getDateRangeData, ClientCache.get, hfind]
    by_cases h : c.ttl < t1 - t0 <;> simp [h, ClientCache.setDateRangeData,
      ClientCache.set]
  · intro h
    rw [ClientCache.getDateRangeData, ClientCache.get, hfind]
    have httl : (c.setDateRangeData baseKey fromS toS v ttlArg t0).ttl
        = c.ttl := rfl
    simp only [httl]
    rw [if_pos h]
    exact find?_filter_ne _ _

/-- C9: `calculateChange` is `none` when the previous total is below the 0.1 kWh threshold, and equals `(current − previous)/previous × 100` at or above it. -/
theorem c9_percent_change (current previous : Rat) :
    (previous < 1 / 10 → calculateChange current previous = none)
    ∧ (1 / 10 ≤ previous →
        calculateChange current previous
          = some ((current - previous) / previous * 100)) := by
  constructor
  · intro h
    rw [calculateChange, if_pos h]
  · intro h
    rw [calculateChange, if_neg (not_lt.mpr h)]

/-- C10: a resolved price equal to 0 is treated exactly like an unresolved price — the day accumulator is updated identically in both cases (`price` and `priceReadings` untouched, consumption and `readingCount` still recorded) — and a chart point with price 0 contributes to neither the cost denominator nor the price sum. -/
theorem c10_zero_price :
    (∀ (rates : List Rate) (r : Reading) (d : DayAcc),
      rates.length ≠ 1 →
      mapGet (buildRateMap rates) r.interval_start = some 0 →
      updateDay rates r d
        = { d with value := d.value + r.consumption,
                   readingCount := d.readingCount + 1 })
    ∧ (∀ (rates : List Rate) (r : Reading) (d : DayAcc),
      rates.length ≠ 1 →
      mapGet (buildRateMap rates) r.interval_start = none →
      updateDay rates r d
        = { d with value := d.value + r.consumption,
                   readingCount := d.readingCount + 1 })
    ∧ (∀ (pts : List ChartPoint) (p : ChartPoint), p.price = 0 →
      priceCountOf (pts ++ [p]) = priceCountOf pts
      ∧ priceSumOf (pts ++ [p]) = priceSumOf pts) := by
  refine ⟨?_, ?_, ?_⟩
  · intro rates r d hl h
    simp [updateDay, h, hl]
  · intro rates r d hl h
    simp [updateDay, h, hl]
  · intro pts p hp
    constructor
    · simp [priceCountOf, List.filter_append, hp]
    · simp [priceSumOf, List.map_append, hp]



/-- Concrete evaluation: grouping the C2 fixture readings. -/
theorem c2_stage1 : groupByDay c2rates c2readings
    = [(0, ⟨1, 10, 1, 1⟩), (2, ⟨2, 20, 1, 1⟩)] := by
  simp [groupByDay, groupStep, updateDay, initDay, mapGet, buildRateMap,
    mapSet, dayOf, minutesPerDay, c2rates, c2readings, List.foldl_cons,
    List.foldl_nil, List.find?]

/-- Concrete evaluation: the chart points of the C2 fixture. -/
theorem c2_stage2 : chartDataPoints c2rates c2readings
    = [⟨0, 1, 10, 1, 1, false⟩, ⟨2, 2, 20, 1, 1, false⟩] := by
  simp [chartDataPoints, c2_stage1]

/-- Concrete evaluation: the zero-filled 30-day series of the C2 fixture. -/
theorem c2_stage3 : finalChartData c2rates c2readings = c2pts := by
  rw [finalChartData, c2_stage2]
  decide

/-- Concrete evaluation: the code formula yields £0.45 on the C2 fixture. -/
theorem c2_stage4 : calculateTotalCost c2pts none = 9 / 20 := by
  simp [calculateTotalCost, usageCost, totalOf, priceSumOf, priceCountOf,
    c2pts]
  norm_num

/-- Concrete evaluation: the claimed per-reading formula yields £0.50 on the C2 fixture. -/
theorem c2_stage5 : specTotalCost c2rates c2readings none 30 = 1 / 2 := by
  simp [specTotalCost, resolvePrice, mapGet, buildRateMap, mapSet, c2rates,
    c2readings, List.find?]
  norm_num

/-- C2 (amended): the usage term of `calculateTotalCost` is total consumption times the sum of per-day prices divided by (100 times the number of days with a nonzero price); the standing-charge term `sc × numberOfDays / 100` is added exactly when the charge is present, nonzero and the day count positive; and the claimed per-reading `Σ consumption × price / 100` form is recovered when all day prices are equal. -/
theorem c2_total_cost (pts : List ChartPoint) (sc : Rat) :
    calculateTotalCost pts none
      = totalOf pts * priceSumOf pts / (priceCountOf pts * 100)
    ∧ (sc ≠ 0 → 0 < numberOfDaysOf pts →
        calculateTotalCost pts (some sc)
          = totalOf pts * priceSumOf pts / (priceCountOf pts * 100)
            + sc * numberOfDaysOf pts / 100)
    ∧ (∀ c : Rat, c ≠ 0 → pts ≠ [] → (∀ p ∈ pts, p.price = c) →
        calculateTotalCost pts none
          = (pts.map (fun p => p.value * c)).sum / 100) := by
  refine ⟨rfl, ?_, ?_⟩
  · intro h1 h2
    show (if sc ≠ 0 ∧ 0 < numberOfDaysOf pts then
        usageCost pts + sc * numberOfDaysOf pts / 100 else usageCost pts) = _
    rw [if_pos ⟨h1, h2⟩, usageCost]
  · intro c hc hne h
    show usageCost pts = _
    rw [usageCost_uniform pts c hc hne h]

/-- C2 counterexample: two readings of 1 kWh at 10 p/kWh and 2 kWh at 20 p/kWh on different days; the code computes `3 × 30 / (2 × 100) = £0.45`, while the formula claimed (sum over readings of consumption times resolved price, over 100) gives `(1×10 + 2×20)/100 = £0.50`. -/
theorem c2_total_cost_counterexample :
    calculateTotalCost (finalChartData c2rates c2readings) none
      ≠ specTotalCost c2rates c2readings none 30
    ∧ calculateTotalCost (finalChartData c2rates c2readings) none = 9 / 20
    ∧ specTotalCost c2rates c2readings none 30 = 1 / 2 := by
  refine ⟨?_, ?_, ?_⟩
  · rw [c2_stage3, c2_stage4, c2_stage5]
    norm_num
  · rw [c2_stage3, c2_stage4]
  · exact c2_stage5


/-- C2 witness: the amended cost equation applied to a concrete one-point series with standing charge 3 p/day. -/
theorem c2_total_cost_witness :
    calculateTotalCost [c2wpt] (some 3)
      = totalOf [c2wpt] * priceSumOf [c2wpt] / (priceCountOf [c2wpt] * 100)
        + 3 * numberOfDaysOf [c2wpt] / 100 :=
  (c2_total_cost [c2wpt] 3).2.1 (by norm_num) (by decide)

/-- C1 counterexample: at timestamp 50 the window `[0, 100)` of the first rate contains 50, so the claim resolves price 10, but the exact-match lookup of the code resolves nothing. -/
theorem c1_rate_resolution_counterexample :
    specResolveRate [⟨0, some 100, 10, none⟩, ⟨100, none, 20, none⟩] 50
      = some 10
    ∧ resolvePrice [⟨0, some 100, 10, none⟩, ⟨100, none, 20, none⟩] 50
      = none := by
  constructor <;> decide

/-- C1 witness: the amended resolution rule applied to the concrete two-entry table at timestamp 100. -/
theorem c1_rate_resolution_witness :
    resolvePrice [⟨0, some 100, 10, none⟩, ⟨100, none, 20, none⟩] 100
      = (([(⟨0, some 100, 10, none⟩ : Rate), ⟨100, none, 20, none⟩].filter
          (fun r => r.valid_from == 100)).getLast?).map Rate.value_inc_vat :=
  (c1_rate_resolution _ 100).1 (by decide)


/-- C4 counterexample: a single standing charge whose window `[0, 10)` has expired at `now = 15` is still selected by the code; the claim requires `none`. -/
theorem c4_standing_charge_counterexample :
    selectStandingCharge [c4expired] = some c4expired
    ∧ specCurrentCharge [c4expired] 15 = none := by
  constructor <;> decide



/-- C4 witness: the amended selection rule applied to a concrete two-entry list, picking the entry with the later `validFrom`. -/
theorem c4_standing_charge_witness :
    c4b ∈ [c4a, c4b] ∧ ∀ e ∈ [c4a, c4b], e.valid_from ≤ c4b.valid_from :=
  (c4_standing_charge_selection [c4a, c4b]).2 c4b (by decide)


/-- C6 counterexample: day 0 fails the threshold (0 readings) and day 1 passes, so the claim — zones are exactly the maximal failing runs, bounded by the nearest good day or the range edge — demands a zone covering day 0; the code reports no zones. -/
theorem c6_missing_zones_counterexample :
    missingZones c6count [0, 1] = [] ∧ c6count 0 < 40 ∧ 40 ≤ c6count 1 := by
  refine ⟨by decide, by decide, by decide⟩

/-- C6 (amended): the reported zones are exactly those of the declarative scan: each zone spans a maximal contiguous run of days with fewer than 40 readings that follows at least one ≥40-reading day, starting at the nearest preceding ≥40-reading day and ending at the nearest following ≥40-reading day, or one day past the maximum expected date when the run reaches the end of the range; leading failing runs produce no zone, and the failing predicate is the reading count alone (consumption is not consulted). -/
theorem c6_missing_zones (count : Nat → Nat) (dates : List Nat) :
    missingZones count dates = specZones count dates :=
  missingZones_eq_specZones count dates


/-- C7 witness: with counts (0, 48, 0) over days 0–2, day 0 is covered by no zone; with all counts below 40 the zone list is empty. -/
theorem c7_leading_gap_witness :
    (∀ z ∈ missingZones c7count [0, 1, 2], ¬(z.1 ≤ 0 ∧ 0 ≤ z.2))
    ∧ missingZones (fun _ => 10) [0, 1] = [] :=
  ⟨(c7_leading_gap c7count [0, 1, 2]).1 0 (by decide) (by decide),
   (c7_leading_gap (fun _ => 10) [0, 1]).2 (by decide)⟩


/-- C8 witness: storing 42 at t=0 in a cache with TTL 100 and reading at t=101 returns `none` and leaves no entry behind. -/
theorem c8_cache_roundtrip_witness :
    (((c8cache.setDateRangeData "k" "a" "b" 42 none 0).getDateRangeData
        "k" "a" "b" 101).1 = none)
    ∧ ((((c8cache.setDateRangeData "k" "a" "b" 42 none 0).getDateRangeData
        "k" "a" "b" 101).2).cache.find?
        (fun p => p.1 == createDateRangeKey "k" "a" "b") = none) := by
  constructor
  · rw [(c8_cache_roundtrip c8cache "k" "a" "b" 42 none 0 101).1]
    decide
  · exact (c8_cache_roundtrip c8cache "k" "a" "b" 42 none 0 101).2 (by decide)

/-- C9 witness: previous total 0.05 kWh and current 5.0 kWh yield `none`, not 9900%. -/
theorem c9_percent_change_witness : calculateChange 5 (1 / 20) = none :=
  (c9_percent_change 5 (1 / 20)).1 (by norm_num)



/-- C10 witness: the zero-priced lookup of `c10reading` in `c10rates` leaves the accumulator price fields untouched. -/
theorem c10_zero_price_witness :
    updateDay c10rates c10reading ⟨0, 0, 0, 0⟩
      = { (⟨0, 0, 0, 0⟩ : DayAcc) with
            value := (⟨0, 0, 0, 0⟩ : DayAcc).value + c10reading.consumption,
            readingCount := (⟨0, 0, 0, 0⟩ : DayAcc).readingCount + 1 } :=
  c10_zero_price.1 c10rates c10reading ⟨0, 0, 0, 0⟩ (by decide) (by decide)


/-- Concrete evaluation of the aggregation for the C3 witness. -/
theorem c3_eval : chartDataPoints [] c3readings = [⟨0, 1, 0, 1, 0, false⟩] := by
  simp [chartDataPoints, groupByDay, groupStep, updateDay, initDay, mapGet,
    buildRateMap, mapSet, c3readings, dayOf, minutesPerDay, List.foldl_cons,
    List.foldl_nil]

/-- C3 witness: the `hasData` equivalence instantiated at the concrete one-reading bucket. -/
theorem c3_hasData_witness :
    (((⟨0, 1, 0, 1, 0, false⟩ : ChartPoint).hasData = true
        ↔ (40 ≤ (⟨0, 1, 0, 1, 0, false⟩ : ChartPoint).readingCount
            ∧ 0 < (⟨0, 1, 0, 1, 0, false⟩ : ChartPoint).value))) :=
  (c3_hasData [] c3readings ⟨0, 1, 0, 1, 0, false⟩
    (by rw [c3_eval]; exact List.mem_singleton_self _)).1


/-- Concrete evaluation of the aggregation for the C5 witness. -/
theorem c5_eval : chartDataPoints [] c5readings = [⟨0, 1, 0, 1, 0, false⟩] := by
  simp [chartDataPoints, groupByDay, groupStep, updateDay, initDay, mapGet,
    buildRateMap, mapSet, c5readings, dayOf, minutesPerDay, List.foldl_cons,
    List.foldl_nil]

/-- C5 witness: the bucket total of the concrete one-reading day equals the filtered consumption sum. -/
theorem c5_daily_totals_witness :
    (⟨0, 1, 0, 1, 0, false⟩ : ChartPoint).value = sumFor 0 c5readings :=
  (c5_daily_totals [] c5readings).1 _
    (by rw [c5_eval]; exact List.mem_singleton_self _)
